import Mathlib

/-!
Verification of the micro-active repository's two simulation cores:
the Airy-disk engine (`src/unnamed/part_001`, a Lit component) and the
slit-diffraction engine (`src/components/diffraction-slit/diffraction-slit.js`).

JavaScript numbers are embedded as exact arithmetic: rational-only code
(criteria, clamping, pixel discretization, slit geometry) is modelled over ℚ
so its properties are decidable; code using transcendental functions
(Bessel J₁, the Airy PSF, the Huygens field summation) is modelled over ℝ.
`Math.random`-driven Gaussian noise is modelled by an oracle sequence of
draws passed as an explicit argument.
-/

namespace MicroActive

/-! ### Helpers from diffraction-slit.js -/

/-- Function `clamp(v, lo, hi)` from diffraction-slit.js:
`v < lo ? lo : v > hi ? hi : v`. -/
def clamp (v lo hi : ℚ) : ℚ :=
  if v < lo then lo else if hi < v then hi else v

/-- The intensity render mode's gray computation in `_renderFrame`:
`gray = 128 + 127 * clamp(field, -1, 1)`. -/
def intensityGray (field : ℚ) : ℚ :=
  128 + 127 * clamp field (-1) 1

/-- Function `wavefrontGray(field, amp)` from diffraction-slit.js: black below the
amplitude threshold `0.005`, else a crest-detection value
`round(max(0,(field/amp - 0.6)/0.4) * min(1, amp*3) * 255)`. -/
def wavefrontGray (field amp : ℚ) : ℤ :=
  if amp < 1/200 then 0
  else
    let nf := field / amp
    let crest := max 0 ((nf - 3/5) / (2/5))
    let af := min 1 (amp * 3)
    round (crest * af * 255)

/-! ### Resolution criteria from part_001 (gaussian-profile component) -/

/-- Method `calculateRayleigh()`: `0.61 * (wavelength/1000) / na`. -/
def calculateRayleigh (wavelength na : ℚ) : ℚ :=
  (61/100) * (wavelength / 1000) / na

/-- Method `calculateAbbe()`: `0.5 * (wavelength/1000) / na`. -/
def calculateAbbe (wavelength na : ℚ) : ℚ :=
  (1/2) * (wavelength / 1000) / na

/-- Method `calculateSparrow()`: `0.47 * (wavelength/1000) / na`. -/
def calculateSparrow (wavelength na : ℚ) : ℚ :=
  (47/100) * (wavelength / 1000) / na

/-! ### Slit geometry (diffraction-slit.js) -/

/-- The component's `mode` property: `'single'` or `'double'`. -/
inductive Mode
  | single
  | double
  deriving DecidableEq, Repr

/-- The geometry clamp in `updated(changed)`: in double mode, when
`slitSeparation < slitWidth`, the property that was NOT just changed is
overwritten by the other (`changedWidth` models `changed.has('slitWidth')`).
Returns the post-update `(slitWidth, slitSeparation)` pair. -/
def updatedClamp (mode : Mode) (slitWidth slitSeparation : ℚ)
    (changedWidth : Bool) : ℚ × ℚ :=
  if mode = Mode.double ∧ slitSeparation < slitWidth then
    if changedWidth then (slitSeparation, slitSeparation)
    else (slitWidth, slitWidth)
  else (slitWidth, slitSeparation)

section Geometry

variable {α : Type} [LinearOrderedField α]

/-- Canvas width `this._W = 800` (the geometry is generic in the number field
so that the same definitions serve the exact ℚ claims and the ℝ field
analysis). -/
def canvasW : α := 800

/-- Method `_getSlitRanges()`: aperture pixel ranges `[left, right]` centered on
`cx = W/2`, widths and separation scaled by `wavelength` (px per λ). -/
def getSlitRanges (mode : Mode) (slitWidth slitSeparation lam : α) :
    List (α × α) :=
  let cx := canvasW / 2
  let sw := slitWidth * lam
  match mode with
  | Mode.single => [(cx - sw / 2, cx + sw / 2)]
  | Mode.double =>
    let sep := slitSeparation * lam
    [(cx - sep / 2 - sw / 2, cx - sep / 2 + sw / 2),
     (cx + sep / 2 - sw / 2, cx + sep / 2 + sw / 2)]

/-- Method `_computeField`'s adaptive source count:
`N = Math.max(10, Math.round(this.slitWidth * 12))`
(`Math.round x = ⌊x + 1/2⌋`, which is Lean's `round`). -/
def sourceCount (slitWidth : ℚ) : ℕ :=
  max 10 (round (slitWidth * 12)).toNat

/-- The inner source-placement loop of `_computeField` for one aperture
`[left, right]`: `left + (j + 0.5) * (w / N)` for `j = 0 .. N-1`. -/
def perAperture (left right : α) (N : ℕ) : List α :=
  (List.range N).map fun j : ℕ => left + ((j : α) + 1/2) * ((right - left) / (N : α))

/-- The full source-point list of `_computeField`: every aperture range
contributes `N` points, with the same `N` shared across apertures. -/
def buildSources (slitRanges : List (α × α)) (N : ℕ) : List α :=
  slitRanges.flatMap fun lr => perAperture lr.1 lr.2 N

end Geometry

/-! ### The pixel discretizer from part_001

`discretizeData` is two `while` loops over rationals; each is embedded with a
`fuel` argument bounding its iteration count, and `discretizeData` passes
enough fuel for both loops to reach their exit conditions. `Math.random`
noise is modelled by an oracle sequence `noise` of Gaussian draws, consumed
one per non-empty pixel exactly as `gaussianRandom` is called. -/

/-- The grid-anchoring loop of `discretizeData`:
`let pixelStart = -pixelOffset; while (pixelStart > rMin) pixelStart -= pixelSize`
with `rMin = -2`. -/
def adjustStart (p : ℚ) : ℕ → ℚ → ℚ
  | 0, s => s
  | fuel + 1, s => if -2 < s then adjustStart p fuel (s - p) else s

/-- The value a non-empty pixel `[s, s+p)` carries: the average of the `y`
of all continuous samples whose `x` falls in `[s, s+p)`, plus one Gaussian
draw when `noiseLevel > 0`. -/
def pixVal (data : List (ℚ × ℚ)) (p noiseLevel : ℚ) (noise : ℕ → ℚ)
    (s : ℚ) (nk : ℕ) : ℚ :=
  ((data.filter fun q => decide (s ≤ q.1) && decide (q.1 < s + p)).map Prod.snd).sum
      / (((data.filter fun q => decide (s ≤ q.1) && decide (q.1 < s + p)).length : ℚ))
    + (if 0 < noiseLevel then noise nk else 0)

/-- The per-pixel loop of `discretizeData` (`while (pixelStart < rMax)` with
`rMax = 2`): a pixel holding at least one continuous sample emits two samples
at its left and right edges, both carrying `pixVal`; an empty pixel emits
nothing; either way the loop advances by `pixelSize`. -/
def discretizeLoop (data : List (ℚ × ℚ)) (p noiseLevel : ℚ) (noise : ℕ → ℚ) :
    ℕ → ℚ → ℕ → List (ℚ × ℚ)
  | 0, _, _ => []
  | fuel + 1, s, nk =>
    if s < 2 then
      if 0 < (data.filter fun q => decide (s ≤ q.1) && decide (q.1 < s + p)).length then
        (s, pixVal data p noiseLevel noise s nk) ::
          (s + p, pixVal data p noiseLevel noise s nk) ::
          discretizeLoop data p noiseLevel noise fuel (s + p) (nk + 1)
      else discretizeLoop data p noiseLevel noise fuel (s + p) nk
    else []

/-- Method `discretizeData(continuousData, pixelSize, pixelOffset, noiseLevel)` from
part_001: `pixelSize ≤ 0` short-circuits to the empty list; otherwise the
grid is anchored by `adjustStart` and the pixels are emitted by
`discretizeLoop`. -/
def discretizeData (data : List (ℚ × ℚ)) (pixelSize pixelOffset noiseLevel : ℚ)
    (noise : ℕ → ℚ) : List (ℚ × ℚ) :=
  if pixelSize ≤ 0 then []
  else
    let fuel1 := (⌈(2 - pixelOffset) / pixelSize⌉).toNat + 1
    let start := adjustStart pixelSize fuel1 (-pixelOffset)
    let fuel2 := (⌈(2 - start) / pixelSize⌉).toNat + 1
    discretizeLoop data pixelSize noiseLevel noise fuel2 start 0

/-- Decides the step-function coverage asserted by the spec: samples come in
pairs `(x, y), (x + p, y)` (one pixel's left and right edges, equal values),
each pair starting exactly where the previous ended (contiguity, no gaps),
with the first sample at or left of `-2` (checked by `coversDomain`) and the
last pair ending at or right of `2`. -/
def stepChain (p : ℚ) : ℚ → List (ℚ × ℚ) → Bool
  | lastEnd, [] => decide (2 ≤ lastEnd)
  | lastEnd, (x1, y1) :: (x2, y2) :: rest =>
    decide (x1 = lastEnd) && decide (x2 = x1 + p) && decide (y2 = y1) &&
      stepChain p x2 rest
  | _, [_] => false

/-- Full-domain coverage: non-empty output starting at or left of `-2` whose
step segments chain contiguously to at least `2`. -/
def coversDomain (p : ℚ) (out : List (ℚ × ℚ)) : Bool :=
  match out with
  | [] => false
  | (x1, _) :: _ => decide (x1 ≤ -2) && stepChain p x1 out

/-! ### The Airy engine's real-valued core (part_001) -/

/-- Method `besselJ1(x)` from part_001: Numerical-Recipes rational approximation of
the Bessel function J₁ — a rational series for `|x| < 8` and an asymptotic
amplitude/phase expansion for `|x| ≥ 8`, with sign correction for `x < 0`. -/
noncomputable def besselJ1 (x : ℝ) : ℝ :=
  if x = 0 then 0
  else
    let ax := |x|
    if ax < 8 then
      let y := x * x
      (x * (72362614232.0 + y * (-7895059235.0 + y *
        (242396853.1 + y * (-2972611.439 + y * (15704.48260 + y *
        (-30.16036606))))))) /
      (144725228442.0 + y * (2300535178.0 + y *
        (18583304.74 + y * (99447.43394 + y * (376.9991397 + y)))))
    else
      let z := 8.0 / ax
      let y := z * z
      let xx := ax - 2.356194491
      let p1 := 1.0 + y * (0.183105e-2 + y * (-0.3516396496e-4 +
        y * (0.2457520174e-5 + y * (-0.240337019e-6))))
      let q1 := 0.04687499995 + y * (-0.2002690873e-3 +
        y * (0.8449199096e-5 + y * (-0.88228987e-6 + y * 0.105787412e-6)))
      let result := Real.sqrt (0.636619772 / ax) *
        (Real.cos xx * p1 - z * Real.sin xx * q1)
      if x < 0 then -result else result

/-- Method `airyDisk(r, wavelength, na, center)` from part_001:
`[2·J₁(x)/x]²` with `x = (2π/λ)·NA·|r − center|`, λ in µm
(`wavelength/1000`), and intensity defined as exactly `1.0` at `r = center`. -/
noncomputable def airyDisk (r wavelength na center : ℝ) : ℝ :=
  let rFromCenter := |r - center|
  if rFromCenter = 0 then 1
  else
    let lambda := wavelength / 1000
    let x := (2 * Real.pi / lambda) * na * rFromCenter
    let j1 := besselJ1 x
    (2 * j1 / x) ^ 2

/-- The sample position of index `i` in `generateAiryData`:
`rMin + (rMax − rMin)·i/(numPoints − 1)` with `rMin = -2`, `rMax = 2`,
`numPoints = 300`. -/
noncomputable def airyRVal (i : ℕ) : ℝ :=
  -2 + (2 - (-2)) * (i : ℝ) / (300 - 1)

/-- Method `generateAiryData(wavelength, na, distance)` from part_001: the two point
sources sit at `±distance/2`; 300 samples of each source's PSF and of their
sum are taken at the positions `airyRVal i`, `i = 0 .. 299`. -/
noncomputable def generateAiryData (wavelength na distance : ℝ) :
    List (ℝ × ℝ) × List (ℝ × ℝ) × List (ℝ × ℝ) :=
  let pos1 := -distance / 2
  let pos2 := distance / 2
  ((List.range 300).map fun i : ℕ =>
      (airyRVal i, airyDisk (airyRVal i) wavelength na pos1),
   (List.range 300).map fun i : ℕ =>
      (airyRVal i, airyDisk (airyRVal i) wavelength na pos2),
   (List.range 300).map fun i : ℕ =>
      (airyRVal i,
       airyDisk (airyRVal i) wavelength na pos1 +
         airyDisk (airyRVal i) wavelength na pos2))

/-! ### The slit field solver's per-cell computation (_computeField) -/

/-- One source's contribution to the `uR` accumulator of `_computeField`:
`amp * cos(k*r)` with `r = √(dx·dx + dy·dy)`, `amp = dy / (r·√r)`,
`dx = cx - s`. -/
noncomputable def waveR (k cx dy s : ℝ) : ℝ :=
  dy / (Real.sqrt ((cx - s) * (cx - s) + dy * dy) *
      Real.sqrt (Real.sqrt ((cx - s) * (cx - s) + dy * dy))) *
    Real.cos (k * Real.sqrt ((cx - s) * (cx - s) + dy * dy))

/-- One source's contribution to the `uI` accumulator of `_computeField`:
`amp * sin(k*r)`. -/
noncomputable def waveI (k cx dy s : ℝ) : ℝ :=
  dy / (Real.sqrt ((cx - s) * (cx - s) + dy * dy) *
      Real.sqrt (Real.sqrt ((cx - s) * (cx - s) + dy * dy))) *
    Real.sin (k * Real.sqrt ((cx - s) * (cx - s) + dy * dy))

/-- The cell value stored by `_computeField` at canvas position `(cx, dy)`:
the source loop accumulates `uR`, `uI`, then both are scaled by `dxSrc`. -/
noncomputable def cellField (sources : List ℝ) (k dxSrc cx dy : ℝ) : ℝ × ℝ :=
  (dxSrc * (sources.map fun s => waveR k cx dy s).sum,
   dxSrc * (sources.map fun s => waveI k cx dy s).sum)

/-- The cell magnitude stored in `fA`: `√(uR·uR + uI·uI)`. -/
noncomputable def cellAmp (sources : List ℝ) (k dxSrc cx dy : ℝ) : ℝ :=
  Real.sqrt ((cellField sources k dxSrc cx dy).1 * (cellField sources k dxSrc cx dy).1 +
    (cellField sources k dxSrc cx dy).2 * (cellField sources k dxSrc cx dy).2)

/-! ### General list helpers -/

theorem getD_range_map {β : Type} (f : ℕ → β) (n i : ℕ) (d : β) (h : i < n) :
    ((List.range n).map f).getD i d = f i := by
  rw [List.getD_eq_getElem?_getD, List.getElem?_map, List.getElem?_range h]
  rfl

theorem perAperture_length (l r : ℚ) (N : ℕ) : (perAperture l r N).length = N := by
  rw [perAperture, List.length_map, List.length_range]

theorem buildSources_length (rs : List (ℚ × ℚ)) (N : ℕ) :
    (buildSources rs N).length = rs.length * N := by
  induction rs with
  | nil => simp [buildSources]
  | cons a t ih =>
    have hsplit : buildSources (a :: t) N = perAperture a.1 a.2 N ++ buildSources t N := by
      simp [buildSources]
    rw [hsplit, List.length_append, perAperture_length, ih, List.length_cons]
    ring

/-! ### Claim theorems: render modes and helpers -/

/-- C4 (counterexample): at a clamped field value of `1` the intensity render
mode produces gray level `128 + 127 = 255`, which is outside the claimed
range `[1, 254]`. -/
theorem intensityGray_exceeds_254 :
    intensityGray 1 = 255 ∧ ¬ intensityGray 1 ≤ 254 := by
  constructor <;> norm_num [intensityGray, clamp]

/-- C4 (amended): the intensity render mode maps the field value, clamped to
`[-1, 1]`, linearly via `128 + 127·clamp(field, -1, 1)`, and every gray value
so produced lies in `[1, 255]`. -/
theorem intensityGray_linear_range (field : ℚ) :
    intensityGray field = 128 + 127 * clamp field (-1) 1 ∧
    1 ≤ intensityGray field ∧ intensityGray field ≤ 255 := by
  refine ⟨rfl, ?_, ?_⟩ <;>
  · unfold intensityGray clamp
    split_ifs <;> linarith

/-- C6: over the valid parameter domain (wavelength in `[400, 700]` nm,
NA in `[0.1, 1.4]`) the criteria are strictly ordered
`Sparrow < Abbe < Rayleigh`, with the formulas `0.47·λ/NA`, `0.5·λ/NA`,
`0.61·λ/NA` for λ in micrometers (`wavelength / 1000`). -/
theorem criterion_ordering (w na : ℚ)
    (h1 : 400 ≤ w) (h2 : w ≤ 700) (h3 : 1/10 ≤ na) (h4 : na ≤ 7/5) :
    calculateSparrow w na < calculateAbbe w na ∧
    calculateAbbe w na < calculateRayleigh w na ∧
    calculateRayleigh w na = (61/100) * (w / 1000) / na ∧
    calculateAbbe w na = (1/2) * (w / 1000) / na ∧
    calculateSparrow w na = (47/100) * (w / 1000) / na := by
  have hw : (0:ℚ) < w / 1000 := by linarith
  have hna : (0:ℚ) < na := by linarith
  unfold calculateSparrow calculateAbbe calculateRayleigh
  refine ⟨?_, ?_, rfl, rfl, rfl⟩ <;>
  · rw [div_lt_div_iff₀ hna hna]
    nlinarith [mul_pos hw hna]

/-- C6 witness at wavelength 550 nm, NA 1. -/
theorem criterion_ordering_witness :
    calculateSparrow 550 1 < calculateAbbe 550 1 ∧
    calculateAbbe 550 1 < calculateRayleigh 550 1 ∧
    calculateRayleigh 550 1 = (61/100) * (550 / 1000) / 1 ∧
    calculateAbbe 550 1 = (1/2) * (550 / 1000) / 1 ∧
    calculateSparrow 550 1 = (47/100) * (550 / 1000) / 1 :=
  criterion_ordering 550 1 (by norm_num) (by norm_num) (by norm_num) (by norm_num)

/-- C7: in double-slit mode, the post-update geometry always satisfies
`slitWidth ≤ slitSeparation`, and whenever the requested update has
`slitSeparation < slitWidth` the resulting pair has the two equal (one is
clamped to the other; the update is never rejected). -/
theorem double_slit_clamp (w sep : ℚ) (cw : Bool) :
    (updatedClamp Mode.double w sep cw).1 ≤ (updatedClamp Mode.double w sep cw).2 ∧
    (sep < w →
      (updatedClamp Mode.double w sep cw).2 = (updatedClamp Mode.double w sep cw).1) := by
  unfold updatedClamp
  split_ifs with h h2
  · exact ⟨le_refl _, fun _ => rfl⟩
  · exact ⟨le_refl _, fun _ => rfl⟩
  · have hge : w ≤ sep := by
      by_contra hc
      exact h ⟨rfl, not_le.mp hc⟩
    exact ⟨hge, fun hc => absurd hc (not_lt.mpr hge)⟩

/-- C7 witness: requested separation 1 below width 2, separation slider was
the changed property. -/
theorem double_slit_clamp_witness :
    (updatedClamp Mode.double 2 1 false).1 ≤ (updatedClamp Mode.double 2 1 false).2 ∧
    (updatedClamp Mode.double 2 1 false).2 = (updatedClamp Mode.double 2 1 false).1 :=
  ⟨(double_slit_clamp 2 1 false).1, (double_slit_clamp 2 1 false).2 (by norm_num)⟩

/-- C8: the field solver uses `N = max(10, round(slitWidth·12))` point sources
per aperture: slit width 1λ gives `N = 12`; the source list holds
`(number of apertures) · N` points (the same `N` for both apertures —
1 aperture in single mode, 2 in double mode); and within an aperture
`[l, r]` consecutive sources are evenly spaced by `(r - l)/N`. -/
theorem source_discretization (w sep lam l r : ℚ) (m : Mode) (j : ℕ)
    (hj : j + 1 < sourceCount w) :
    sourceCount 1 = 12 ∧
    (buildSources (getSlitRanges m w sep lam) (sourceCount w)).length
      = (getSlitRanges m w sep lam).length * sourceCount w ∧
    (getSlitRanges Mode.single w sep lam).length = 1 ∧
    (getSlitRanges Mode.double w sep lam).length = 2 ∧
    (perAperture l r (sourceCount w)).getD (j+1) 0
      - (perAperture l r (sourceCount w)).getD j 0 = (r - l) / sourceCount w := by
  refine ⟨?_, buildSources_length _ _, rfl, rfl, ?_⟩
  · unfold sourceCount
    norm_num
    decide
  · unfold perAperture
    rw [getD_range_map _ _ _ _ hj, getD_range_map _ _ _ _ (by omega)]
    push_cast
    ring

/-- C8 witness: single mode, slit width 1λ, aperture `[0, 12]`, adjacent
sources 0 and 1. -/
theorem source_discretization_witness :
    sourceCount 1 = 12 ∧
    (buildSources (getSlitRanges Mode.single (1:ℚ) 5 20) (sourceCount 1)).length
      = (getSlitRanges Mode.single (1:ℚ) 5 20).length * sourceCount 1 ∧
    (getSlitRanges Mode.single (1:ℚ) 5 20).length = 1 ∧
    (getSlitRanges Mode.double (1:ℚ) 5 20).length = 2 ∧
    (perAperture (0:ℚ) 12 (sourceCount 1)).getD (0 + 1) 0
      - (perAperture (0:ℚ) 12 (sourceCount 1)).getD 0 0
      = ((12:ℚ) - 0) / sourceCount 1 :=
  source_discretization 1 5 20 0 12 Mode.single 0
    (by unfold sourceCount; norm_num)

/-- C10: with `0 ≤ amp` and `|field| ≤ amp` (which hold for every cell the
renderer passes in), `wavefrontGray` returns an integer gray level in
`[0, 255]`, and returns exactly `0` whenever `amp < 0.005`. -/
theorem wavefrontGray_range (field amp : ℚ) (h1 : 0 ≤ amp) (h2 : |field| ≤ amp) :
    0 ≤ wavefrontGray field amp ∧ wavefrontGray field amp ≤ 255 ∧
    (amp < 1/200 → wavefrontGray field amp = 0) := by
  unfold wavefrontGray
  split_ifs with hlt
  · exact ⟨le_refl 0, by norm_num, fun _ => rfl⟩
  · have hpos : (0:ℚ) < amp := by linarith [not_lt.mp hlt]
    have hf : field ≤ amp := (abs_le.mp h2).2
    have hnf : field / amp ≤ 1 := (div_le_one hpos).mpr hf
    have hcrest0 : (0:ℚ) ≤ max 0 ((field / amp - 3/5) / (2/5)) := le_max_left _ _
    have hcrest1 : max 0 ((field / amp - 3/5) / (2/5)) ≤ 1 := by
      apply max_le (by norm_num)
      rw [div_le_one (by norm_num)]
      linarith
    have haf0 : (0:ℚ) ≤ min 1 (amp * 3) := le_min (by norm_num) (by linarith)
    have haf1 : min 1 (amp * 3) ≤ 1 := min_le_left _ _
    have hprod0 : (0:ℚ) ≤ max 0 ((field / amp - 3/5) / (2/5)) * min 1 (amp * 3) * 255 := by
      positivity
    have hprod1 : max 0 ((field / amp - 3/5) / (2/5)) * min 1 (amp * 3) * 255 ≤ 255 := by
      nlinarith
    refine ⟨?_, ?_, fun hc => absurd hc hlt⟩
    · rw [round_eq]
      calc (0:ℤ) ≤ ⌊(1/2 : ℚ)⌋ := by norm_num
        _ ≤ ⌊max 0 ((field / amp - 3/5) / (2/5)) * min 1 (amp * 3) * 255 + 1/2⌋ :=
          Int.floor_le_floor (by linarith)
    · rw [round_eq]
      calc ⌊max 0 ((field / amp - 3/5) / (2/5)) * min 1 (amp * 3) * 255 + 1/2⌋
          ≤ ⌊(511/2 : ℚ)⌋ := Int.floor_le_floor (by linarith)
        _ = 255 := by norm_num

/-- C10 witness at field 1/2, amplitude 1. -/
theorem wavefrontGray_range_witness :
    0 ≤ wavefrontGray (1/2) 1 ∧ wavefrontGray (1/2) 1 ≤ 255 ∧
    ((1:ℚ) < 1/200 → wavefrontGray (1/2) 1 = 0) :=
  wavefrontGray_range (1/2) 1 (by norm_num) (by rw [abs_le]; constructor <;> norm_num)

/-- C1: for every valid wavelength and NA (and any center), the Airy PSF is
exactly `1.0` at `r = center`, and it is symmetric about `center`:
`airyDisk(center + d) = airyDisk(center − d)` for every offset `d`. -/
theorem airyDisk_center_one_symm (wavelength na center d : ℝ)
    (h1 : 400 ≤ wavelength) (h2 : wavelength ≤ 700)
    (h3 : 1/10 ≤ na) (h4 : na ≤ 7/5) :
    airyDisk center wavelength na center = 1 ∧
    airyDisk (center + d) wavelength na center
      = airyDisk (center - d) wavelength na center := by
  constructor
  · unfold airyDisk
    simp
  · unfold airyDisk
    rw [show center + d - center = d by ring, show center - d - center = -d by ring,
      abs_neg]

/-- C1 witness at wavelength 550 nm, NA 1, center 0, offset 1. -/
theorem airyDisk_center_one_symm_witness :
    airyDisk 0 550 1 0 = 1 ∧ airyDisk (0 + 1) 550 1 0 = airyDisk (0 - 1) 550 1 0 :=
  airyDisk_center_one_symm 550 1 0 1 (by norm_num) (by norm_num) (by norm_num)
    (by norm_num)

/-- C2: for fixed parameters, `generateAiryData` returns three 300-sample
series; position `i` is `-2 + 4·i/299` (equally spaced, starting at exactly
`-2` and ending at exactly `2`); the three series share their positions;
`dataSum[i].y = data1[i].y + data2[i].y`; and the two sources are evaluated
at centers `-distance/2` and `+distance/2`. -/
theorem generateAiryData_profile (w na d : ℝ) (i : ℕ) (h : i < 300) :
    (generateAiryData w na d).1.length = 300 ∧
    (generateAiryData w na d).2.1.length = 300 ∧
    (generateAiryData w na d).2.2.length = 300 ∧
    ((generateAiryData w na d).1.getD i (0, 0)).1 = -2 + 4 * (i : ℝ) / 299 ∧
    ((generateAiryData w na d).2.1.getD i (0, 0)).1
      = ((generateAiryData w na d).1.getD i (0, 0)).1 ∧
    ((generateAiryData w na d).2.2.getD i (0, 0)).1
      = ((generateAiryData w na d).1.getD i (0, 0)).1 ∧
    ((generateAiryData w na d).1.getD 0 (0, 0)).1 = -2 ∧
    ((generateAiryData w na d).1.getD 299 (0, 0)).1 = 2 ∧
    (i + 1 < 300 →
      ((generateAiryData w na d).1.getD (i + 1) (0, 0)).1
        - ((generateAiryData w na d).1.getD i (0, 0)).1 = 4 / 299) ∧
    ((generateAiryData w na d).1.getD i (0, 0)).2
      = airyDisk (airyRVal i) w na (-d / 2) ∧
    ((generateAiryData w na d).2.1.getD i (0, 0)).2
      = airyDisk (airyRVal i) w na (d / 2) ∧
    ((generateAiryData w na d).2.2.getD i (0, 0)).2
      = ((generateAiryData w na d).1.getD i (0, 0)).2
        + ((generateAiryData w na d).2.1.getD i (0, 0)).2 := by
  have e1 : (generateAiryData w na d).1
      = (List.range 300).map fun i : ℕ =>
          (airyRVal i, airyDisk (airyRVal i) w na (-d / 2)) := rfl
  have e2 : (generateAiryData w na d).2.1
      = (List.range 300).map fun i : ℕ =>
          (airyRVal i, airyDisk (airyRVal i) w na (d / 2)) := rfl
  have e3 : (generateAiryData w na d).2.2
      = (List.range 300).map fun i : ℕ =>
          (airyRVal i,
           airyDisk (airyRVal i) w na (-d / 2) + airyDisk (airyRVal i) w na (d / 2)) := rfl
  have hx : ∀ j : ℕ, airyRVal j = -2 + 4 * (j : ℝ) / 299 := by
    intro j
    unfold airyRVal
    norm_num
  refine ⟨?_, ?_, ?_, ?_, ?_, ?_, ?_, ?_, ?_, ?_, ?_, ?_⟩
  · rw [e1, List.length_map, List.length_range]
  · rw [e2, List.length_map, List.length_range]
  · rw [e3, List.length_map, List.length_range]
  · rw [e1, getD_range_map _ _ _ _ h, hx]
  · rw [e1, e2, getD_range_map _ _ _ _ h, getD_range_map _ _ _ _ h]
  · rw [e1, e3, getD_range_map _ _ _ _ h, getD_range_map _ _ _ _ h]
  · rw [e1, getD_range_map _ _ _ _ (show 0 < 300 by norm_num), hx]
    norm_num
  · rw [e1, getD_range_map _ _ _ _ (show 299 < 300 by norm_num), hx]
    norm_num
  · intro h2
    rw [e1, getD_range_map _ _ _ _ h2, getD_range_map _ _ _ _ h, hx, hx]
    push_cast
    ring
  · rw [e1, getD_range_map _ _ _ _ h]
  · rw [e2, getD_range_map _ _ _ _ h]
  · rw [e1, e2, e3, getD_range_map _ _ _ _ h, getD_range_map _ _ _ _ h,
      getD_range_map _ _ _ _ h]

/-- C2 witness at wavelength 550 nm, NA 1, distance 1, sample index 0. -/
theorem generateAiryData_profile_witness :
    (generateAiryData 550 1 1).1.length = 300 ∧
    (generateAiryData 550 1 1).2.1.length = 300 ∧
    (generateAiryData 550 1 1).2.2.length = 300 ∧
    ((generateAiryData 550 1 1).1.getD 0 (0, 0)).1 = -2 + 4 * ((0:ℕ) : ℝ) / 299 ∧
    ((generateAiryData 550 1 1).2.1.getD 0 (0, 0)).1
      = ((generateAiryData 550 1 1).1.getD 0 (0, 0)).1 ∧
    ((generateAiryData 550 1 1).2.2.getD 0 (0, 0)).1
      = ((generateAiryData 550 1 1).1.getD 0 (0, 0)).1 ∧
    ((generateAiryData 550 1 1).1.getD 0 (0, 0)).1 = -2 ∧
    ((generateAiryData 550 1 1).1.getD 299 (0, 0)).1 = 2 ∧
    (0 + 1 < 300 →
      ((generateAiryData 550 1 1).1.getD (0 + 1) (0, 0)).1
        - ((generateAiryData 550 1 1).1.getD 0 (0, 0)).1 = 4 / 299) ∧
    ((generateAiryData 550 1 1).1.getD 0 (0, 0)).2
      = airyDisk (airyRVal 0) 550 1 (-1 / 2) ∧
    ((generateAiryData 550 1 1).2.1.getD 0 (0, 0)).2
      = airyDisk (airyRVal 0) 550 1 (1 / 2) ∧
    ((generateAiryData 550 1 1).2.2.getD 0 (0, 0)).2
      = ((generateAiryData 550 1 1).1.getD 0 (0, 0)).2
        + ((generateAiryData 550 1 1).2.1.getD 0 (0, 0)).2 :=
  generateAiryData_profile 550 1 1 0 (by norm_num)

theorem list_range_map_sum {M : Type} [AddCommMonoid M] (f : ℕ → M) (n : ℕ) :
    ((List.range n).map f).sum = ∑ j ∈ Finset.range n, f j := by
  induction n with
  | zero => simp
  | succ n ih =>
    rw [List.range_succ, List.map_append, List.sum_append, Finset.sum_range_succ, ih]
    simp

/-- Summing any function of the squared horizontal distance over one
aperture's sources is invariant under reflection about the aperture's
midpoint `(l + r)/2`. -/
theorem sum_sq_reflect (G : ℝ → ℝ) (l r d : ℝ) (N : ℕ) :
    ((perAperture l r N).map fun s : ℝ =>
        G (((l + r) / 2 + d - s) * ((l + r) / 2 + d - s))).sum
      = ((perAperture l r N).map fun s : ℝ =>
        G (((l + r) / 2 - d - s) * ((l + r) / 2 - d - s))).sum := by
  unfold perAperture
  rw [List.map_map, List.map_map, list_range_map_sum, list_range_map_sum,
    ← Finset.sum_range_reflect]
  apply Finset.sum_congr rfl
  intro j hj
  have hjN : j < N := Finset.mem_range.mp hj
  have hN : (N : ℝ) ≠ 0 := Nat.cast_ne_zero.mpr (by omega)
  have hcast : ((N - 1 - j : ℕ) : ℝ) = (N : ℝ) - 1 - (j : ℝ) := by
    have heq : N - 1 - j = N - (j + 1) := by omega
    rw [heq, Nat.cast_sub (by omega : j + 1 ≤ N)]
    push_cast
    ring
  simp only [Function.comp]
  have key : (l + r) / 2 + d - (l + (((N - 1 - j : ℕ) : ℝ) + 1/2) * ((r - l) / N))
      = -((l + r) / 2 - d - (l + ((j : ℝ) + 1/2) * ((r - l) / N))) := by
    rw [hcast]
    field_simp
    ring
  rw [key, neg_mul_neg]

/-- C9: for a single centered aperture the per-cell field of `_computeField`
is symmetric about the aperture's vertical centerline `cx = W/2 = 400`:
in every grid row (any `dy`), cells at equal horizontal distances `d` on
either side hold equal `(uR, uI)` values and hence equal magnitudes —
exactly, over this exact-arithmetic embedding. -/
theorem cellField_single_symmetric (w sep lam k dxSrc dy d : ℝ) (N : ℕ) :
    cellField (buildSources (getSlitRanges Mode.single w sep lam) N) k dxSrc
        (canvasW / 2 + d) dy
      = cellField (buildSources (getSlitRanges Mode.single w sep lam) N) k dxSrc
        (canvasW / 2 - d) dy ∧
    cellAmp (buildSources (getSlitRanges Mode.single w sep lam) N) k dxSrc
        (canvasW / 2 + d) dy
      = cellAmp (buildSources (getSlitRanges Mode.single w sep lam) N) k dxSrc
        (canvasW / 2 - d) dy := by
  have hsrc : buildSources (getSlitRanges Mode.single w sep lam) N
      = perAperture (canvasW / 2 - w * lam / 2) (canvasW / 2 + w * lam / 2) N := by
    simp [buildSources, getSlitRanges]
  have hmid : ((canvasW / 2 - w * lam / 2) + (canvasW / 2 + w * lam / 2)) / 2
      = (canvasW / 2 : ℝ) := by ring
  have hfield : cellField (buildSources (getSlitRanges Mode.single w sep lam) N) k dxSrc
        (canvasW / 2 + d) dy
      = cellField (buildSources (getSlitRanges Mode.single w sep lam) N) k dxSrc
        (canvasW / 2 - d) dy := by
    rw [hsrc]
    unfold cellField
    refine congrArg₂ Prod.mk (congrArg (dxSrc * ·) ?_) (congrArg (dxSrc * ·) ?_)
    · have := sum_sq_reflect
        (fun t => dy / (Real.sqrt (t + dy * dy) * Real.sqrt (Real.sqrt (t + dy * dy))) *
          Real.cos (k * Real.sqrt (t + dy * dy)))
        (canvasW / 2 - w * lam / 2) (canvasW / 2 + w * lam / 2) d N
      rw [hmid] at this
      exact this
    · have := sum_sq_reflect
        (fun t => dy / (Real.sqrt (t + dy * dy) * Real.sqrt (Real.sqrt (t + dy * dy))) *
          Real.sin (k * Real.sqrt (t + dy * dy)))
        (canvasW / 2 - w * lam / 2) (canvasW / 2 + w * lam / 2) d N
      rw [hmid] at this
      exact this
  refine ⟨hfield, ?_⟩
  unfold cellAmp
  rw [hfield]

/-! ### Discretizer theorems (C3, C5) -/

/-- C5: nonpositive pixel size makes `discretizeData` return the empty
sequence (continuous-mode fallback) for every continuous profile, offset and
noise level; the function is total, so no error can be raised. -/
theorem discretizeData_nonpos_empty (data : List (ℚ × ℚ)) (p o nl : ℚ)
    (noise : ℕ → ℚ) (hp : p ≤ 0) :
    discretizeData data p o nl noise = [] := by
  unfold discretizeData
  rw [if_pos hp]

/-- C5 witness: pixel size 0 with a nonempty profile. -/
theorem discretizeData_nonpos_empty_witness :
    discretizeData [((1:ℚ), 1)] 0 0 0 (fun _ => 0) = [] :=
  discretizeData_nonpos_empty [((1:ℚ), 1)] 0 0 0 (fun _ => 0) (by norm_num)

theorem adjustStart_lower (p : ℚ) :
    ∀ fuel : ℕ, ∀ s : ℚ, -2 - p < s → -2 - p < adjustStart p fuel s := by
  intro fuel
  induction fuel with
  | zero => intro s h; exact h
  | succ fuel ih =>
    intro s h
    rw [adjustStart]
    split_ifs with hs
    · exact ih (s - p) (by linarith)
    · exact h

theorem adjustStart_le (p : ℚ) (hp : 0 < p) :
    ∀ fuel : ℕ, ∀ s : ℚ, (2 + s) / p ≤ (fuel : ℚ) → adjustStart p fuel s ≤ -2 := by
  intro fuel
  induction fuel with
  | zero =>
    intro s h
    rw [adjustStart]
    by_contra hc
    push_neg at hc
    have hpos : (0:ℚ) < (2 + s) / p := div_pos (by linarith) hp
    norm_num at h
    linarith
  | succ fuel ih =>
    intro s h
    rw [adjustStart]
    split_ifs with hs
    · apply ih
      have heq : (2 + (s - p)) / p = (2 + s) / p - 1 := by
        field_simp
        ring
      rw [heq]
      push_cast at h
      linarith
    · linarith [not_lt.mp hs]

theorem discretizeLoop_mem (data : List (ℚ × ℚ)) (p nl : ℚ) (noise : ℕ → ℚ)
    (hp : 0 < p) :
    ∀ fuel : ℕ, ∀ s : ℚ, ∀ nk : ℕ, ∀ q ∈ discretizeLoop data p nl noise fuel s nk,
      s ≤ q.1 ∧ q.1 ≤ 2 + p := by
  intro fuel
  induction fuel with
  | zero => intro s nk q hq; simp [discretizeLoop] at hq
  | succ fuel ih =>
    intro s nk q hq
    rw [discretizeLoop] at hq
    split_ifs at hq with hs hlen
    · rcases List.mem_cons.mp hq with rfl | hq2
      · exact ⟨le_refl _, by show s ≤ 2 + p; linarith⟩
      rcases List.mem_cons.mp hq2 with rfl | hq3
      · exact ⟨by show s ≤ s + p; linarith, by show s + p ≤ 2 + p; linarith⟩
      · have := ih (s + p) (nk + 1) q hq3
        exact ⟨by linarith [this.1], this.2⟩
    · have := ih (s + p) nk q hq
      exact ⟨by linarith [this.1], this.2⟩
    · simp at hq

theorem discretizeLoop_stepChain (data : List (ℚ × ℚ)) (p nl : ℚ) (noise : ℕ → ℚ)
    (hp : 0 < p)
    (H : ∀ s : ℚ, -2 - p < s → s < 2 →
      data.filter (fun q => decide (s ≤ q.1) && decide (q.1 < s + p)) ≠ []) :
    ∀ fuel : ℕ, ∀ s : ℚ, ∀ nk : ℕ, -2 - p < s → (2 - s) / p ≤ (fuel : ℚ) →
      stepChain p s (discretizeLoop data p nl noise fuel s nk) = true := by
  intro fuel
  induction fuel with
  | zero =>
    intro s nk h1 h2
    have hs2 : 2 ≤ s := by
      by_contra hc
      push_neg at hc
      have hpos : (0:ℚ) < (2 - s) / p := div_pos (by linarith) hp
      norm_num at h2
      linarith
    simp [discretizeLoop, stepChain, hs2]
  | succ fuel ih =>
    intro s nk h1 h2
    rw [discretizeLoop]
    by_cases hs : s < 2
    · rw [if_pos hs]
      have hne := H s h1 hs
      have hlen : 0 <
          (data.filter fun q => decide (s ≤ q.1) && decide (q.1 < s + p)).length :=
        List.length_pos.mpr hne
      rw [if_pos hlen]
      simp only [stepChain, Bool.and_eq_true, decide_eq_true_eq]
      refine ⟨by simp, ?_⟩
      apply ih (s + p) (nk + 1) (by linarith)
      have heq : (2 - (s + p)) / p = (2 - s) / p - 1 := by
        field_simp
        ring
      rw [heq]
      push_cast at h2
      linarith
    · rw [if_neg hs]
      simp [stepChain, not_lt.mp hs]

theorem discretizeLoop_head (data : List (ℚ × ℚ)) (p nl : ℚ) (noise : ℕ → ℚ)
    (fuel : ℕ) (s : ℚ) (nk : ℕ) (hs : s < 2)
    (hne : data.filter (fun q => decide (s ≤ q.1) && decide (q.1 < s + p)) ≠ []) :
    ∃ rest, discretizeLoop data p nl noise (fuel + 1) s nk
      = (s, pixVal data p nl noise s nk) :: rest := by
  rw [discretizeLoop, if_pos hs, if_pos (List.length_pos.mpr hne)]
  exact ⟨_, rfl⟩

/-- C3 (amended): for `0 < pixelSize`, `0 ≤ offset ≤ pixelSize/2`, and
continuous data dense enough that every candidate pixel window meeting the
domain holds at least one sample, the discretized output is a step function —
two samples per pixel at its edges with equal values — whose segments chain
contiguously with no gaps from at or left of `-2` to at or right of `2`
(`coversDomain`), and every emitted sample position lies within
`[-2 - pixelSize, 2 + pixelSize]`. -/
theorem discretize_covers (data : List (ℚ × ℚ)) (p o nl : ℚ) (noise : ℕ → ℚ)
    (hp : 0 < p) (ho1 : 0 ≤ o) (ho2 : o ≤ p / 2)
    (H : ∀ s : ℚ, -2 - p < s → s < 2 →
      data.filter (fun q => decide (s ≤ q.1) && decide (q.1 < s + p)) ≠ []) :
    coversDomain p (discretizeData data p o nl noise) = true ∧
    ∀ q ∈ discretizeData data p o nl noise, -2 - p ≤ q.1 ∧ q.1 ≤ 2 + p := by
  have hnp : ¬ p ≤ 0 := not_le.mpr hp
  have hdd : discretizeData data p o nl noise
      = discretizeLoop data p nl noise
          ((⌈(2 - adjustStart p ((⌈(2 - o) / p⌉).toNat + 1) (-o)) / p⌉).toNat + 1)
          (adjustStart p ((⌈(2 - o) / p⌉).toNat + 1) (-o)) 0 := by
    unfold discretizeData
    rw [if_neg hnp]
  set s0 := adjustStart p ((⌈(2 - o) / p⌉).toNat + 1) (-o) with hs0def
  have hlow : -2 - p < s0 := adjustStart_lower p _ _ (by linarith)
  have hhigh : s0 ≤ -2 := by
    apply adjustStart_le p hp
    have hc1 : (2 - o) / p ≤ ((⌈(2 - o) / p⌉ : ℤ) : ℚ) := Int.le_ceil _
    have hc2 : ((⌈(2 - o) / p⌉ : ℤ) : ℚ) ≤ ((⌈(2 - o) / p⌉.toNat : ℤ) : ℚ) := by
      exact_mod_cast Int.self_le_toNat _
    push_cast at hc2 ⊢
    have heq : 2 + -o = 2 - o := by ring
    rw [heq]
    linarith
  have hfuel2 : (2 - s0) / p ≤ (((⌈(2 - s0) / p⌉).toNat + 1 : ℕ) : ℚ) := by
    have hc1 : (2 - s0) / p ≤ ((⌈(2 - s0) / p⌉ : ℤ) : ℚ) := Int.le_ceil _
    have hc2 : ((⌈(2 - s0) / p⌉ : ℤ) : ℚ) ≤ ((⌈(2 - s0) / p⌉.toNat : ℤ) : ℚ) := by
      exact_mod_cast Int.self_le_toNat _
    push_cast at hc2 ⊢
    linarith
  constructor
  · rw [hdd]
    obtain ⟨rest, hrest⟩ := discretizeLoop_head data p nl noise
      ((⌈(2 - s0) / p⌉).toNat) s0 0 (by linarith) (H s0 hlow (by linarith))
    rw [hrest]
    show (decide (s0 ≤ -2) &&
      stepChain p s0 ((s0, pixVal data p nl noise s0 0) :: rest)) = true
    rw [Bool.and_eq_true]
    refine ⟨decide_eq_true hhigh, ?_⟩
    rw [← hrest]
    exact discretizeLoop_stepChain data p nl noise hp H _ s0 0 hlow hfuel2
  · intro q hq
    rw [hdd] at hq
    have hb := discretizeLoop_mem data p nl noise hp _ s0 0 q hq
    exact ⟨by linarith [hb.1], hb.2⟩

/-- C3 witness: profile samples at `-2, 0, 2`, pixel size 2, offset 0. -/
theorem discretize_covers_witness :
    coversDomain 2 (discretizeData [((-2:ℚ), 0), (0, 0), (2, 0)] 2 0 0 (fun _ => 0))
      = true :=
  (discretize_covers [((-2:ℚ), 0), (0, 0), (2, 0)] 2 0 0 (fun _ => 0)
    (by norm_num) (le_refl 0) (by norm_num)
    (by
      intro s h1 h2
      rcases le_or_lt s (-2) with hs | hs
      · apply List.ne_nil_of_mem (a := ((-2:ℚ), (0:ℚ)))
        refine List.mem_filter.mpr ⟨by simp, ?_⟩
        rw [Bool.and_eq_true, decide_eq_true_eq, decide_eq_true_eq]
        exact ⟨hs, by show (-2:ℚ) < s + 2; linarith⟩
      · rcases le_or_lt s 0 with hs2 | hs2
        · apply List.ne_nil_of_mem (a := ((0:ℚ), (0:ℚ)))
          refine List.mem_filter.mpr ⟨by simp, ?_⟩
          rw [Bool.and_eq_true, decide_eq_true_eq, decide_eq_true_eq]
          exact ⟨hs2, by show (0:ℚ) < s + 2; linarith⟩
        · apply List.ne_nil_of_mem (a := ((2:ℚ), (0:ℚ)))
          refine List.mem_filter.mpr ⟨by simp, ?_⟩
          rw [Bool.and_eq_true, decide_eq_true_eq, decide_eq_true_eq]
          exact ⟨by show s ≤ (2:ℚ); linarith, by show (2:ℚ) < s + 2; linarith⟩)).1

/-- C3 (counterexample): with sparse continuous data (a single sample at
`-2`), pixel size 1 and offset 0 — both in the claim's stated domain — only
the first pixel is non-empty, so the output is the single segment
`[(-2, 0), (-1, 0)]` and the claimed gap-free coverage of `[-2, 2]` fails. -/
theorem discretize_gap_counterexample :
    (0:ℚ) < 1 ∧ (0:ℚ) ≤ 0 ∧ (0:ℚ) ≤ 1 / 2 ∧
    coversDomain 1 (discretizeData [((-2:ℚ), 0)] 1 0 0 (fun _ => 0)) = false := by
  refine ⟨by norm_num, le_refl 0, by norm_num, ?_⟩
  have hf1 : (⌈((2:ℚ) - 0) / 1⌉).toNat + 1 = 3 := by
    norm_num
    decide
  have hstart : adjustStart 1 ((⌈((2:ℚ) - 0) / 1⌉).toNat + 1) (-0) = -2 := by
    rw [hf1]
    norm_num [adjustStart]
  have hf2 : (⌈((2:ℚ) - adjustStart 1 ((⌈((2:ℚ) - 0) / 1⌉).toNat + 1) (-0)) / 1⌉).toNat
      + 1 = 5 := by
    rw [hstart]
    norm_num
    decide
  have hout : discretizeData [((-2:ℚ), 0)] 1 0 0 (fun _ => 0) = [(-2, 0), (-1, 0)] := by
    unfold discretizeData
    rw [if_neg (by norm_num : ¬ (1:ℚ) ≤ 0)]
    show discretizeLoop [((-2:ℚ), 0)] 1 0 (fun _ => 0)
        ((⌈((2:ℚ) - adjustStart 1 ((⌈((2:ℚ) - 0) / 1⌉).toNat + 1) (-0)) / 1⌉).toNat + 1)
        (adjustStart 1 ((⌈((2:ℚ) - 0) / 1⌉).toNat + 1) (-0)) 0 = [(-2, 0), (-1, 0)]
    rw [hf2, hstart]
    norm_num [discretizeLoop, pixVal, List.filter]
  rw [hout]
  norm_num [coversDomain, stepChain]

end MicroActive
